import Mathlib

/-!
Verification of `src/llvm-remove-addrspaces.cpp`, an LLVM module pass that
rewrites every pointer type in a module so that its address space is the
image of the original address space under a caller-supplied remapping
policy (`AddrspaceRemapFunction = std::function<unsigned(unsigned)>`).

The development shallowly embeds the pass's data model and operations:

* `LLType` models `llvm::Type` in the opaque-pointer era used by the source
  (`PointerType::get(Ty->getContext(), AS)` carries only an address space;
  a pointer type has no pointee type).  Since structs cannot contain
  themselves by value and pointers carry no pointee, the type graph is a
  finite tree, and the `DenseMap<Type *, Type *> MappedTypes` memo of
  `AddrspaceRemoveTypeRemapper` affects only sharing and cycle-breaking for
  the typed-pointer era; `remapType` is therefore embedded as a pure
  structural recursion whose branches mirror the source case by case.
* `Val` models `llvm::Value` restricted to the shapes the
  `AddrspaceRemoveValueMaterializer` distinguishes: non-expression
  constants, global references, `ConstantExpr` address-space casts,
  `getelementptr` expressions, other `ConstantExpr`s, and non-constant
  values.
* `NamedInst` lists model function bodies for `RemoveNoopAddrSpaceCasts`;
  an operand is a reference to a value (by SSA id) together with the type
  of the referenced value, mirroring an `llvm::Use` of a typed `Value`.
* `Module` and `removeAddrspaces` model the driver `removeAddrspaces(Module
  &, AddrspaceRemapFunction)`: rename each original entity with a ".bad"
  suffix, declare a replacement carrying the original name and the remapped
  types, wire initializers / bodies / aliasees through the value mapper,
  then erase the renamed originals.  The model keeps only the surviving
  replacements (the erased originals never appear in the final module).
  The final intrinsic-remangling loop calls the LLVM library routine
  `Intrinsic::remangleIntrinsicFunction`, which is not part of this
  repository's source; it is modelled from the spec (§4.3 step 9 and the
  glossary entry on intrinsic remangling) as `remangleIntrinsicFunction`.
-/

namespace LLVMRemoveAddrspaces

/-- Model of `llvm::Type` (opaque-pointer era, as used by the source:
`PointerType::get(Ty->getContext(), AS)`).  `scalar` covers all
pointer-free leaf types (integers, floats, void, labels, ...), identified
by an opaque id.  Literal structs carry no name (`assert(!Ty->hasName())`
in the source); named (identified) structs carry a name (`""` for an
unnamed identified struct, matching LLVM's empty-name convention) and a
body; opaque structs have no body. -/
inductive LLType where
  | scalar (id : Nat)
  | pointer (addrspace : Nat)
  | function (ret : LLType) (params : List LLType) (vararg : Bool)
  | structLit (fields : List LLType) (packed : Bool)
  | structNamed (name : String) (fields : List LLType) (packed : Bool)
  | structOpaque (name : String)
  | array (elem : LLType) (size : Nat)
  | vector (elem : LLType) (width : Nat)

/-- `AddressSpace::Generic` from `llvm-codegen-shared.h`.
Modelled from the spec: the header defining the `AddressSpace` enum is not
part of the provided source; the spec designates a single "generic"
address space that collapse-all policies map everything into, which is
address space `0`. -/
def AddressSpaceGeneric : Nat := 0

/-- `removeAllAddrspaces` (source lines 223–226): the collapse-all policy,
mapping every address space to `AddressSpace::Generic`. -/
def removeAllAddrspaces (_AS : Nat) : Nat := AddressSpaceGeneric

mutual

/-- `AddrspaceRemoveTypeRemapper::remapType` (source lines 38–104),
embedded as a structural recursion (see the file header for why the
`MappedTypes` memo is semantically transparent here): pointers get the
policy-remapped address space; function, literal-struct, named-struct,
array and vector types are rebuilt with recursively remapped components
(for a named non-opaque struct the source renames the original to
`Name + ".bad"` and gives the replacement struct the original name, so the
result keeps the source name); opaque structs and every other type kind
pass through unchanged. -/
def remapType (ASRemapper : Nat → Nat) : LLType → LLType
  | .scalar id => .scalar id
  | .pointer addrspace => .pointer (ASRemapper addrspace)
  | .function ret params vararg =>
      .function (remapType ASRemapper ret) (remapTypeList ASRemapper params) vararg
  | .structLit fields packed => .structLit (remapTypeList ASRemapper fields) packed
  | .structNamed name fields packed =>
      .structNamed name (remapTypeList ASRemapper fields) packed
  | .structOpaque name => .structOpaque name
  | .array elem size => .array (remapType ASRemapper elem) size
  | .vector elem width => .vector (remapType ASRemapper elem) width

/-- Pointwise `remapType` over a parameter or field list (the source's
loops pushing `remapType(...)` results into a `SmallVector`). -/
def remapTypeList (ASRemapper : Nat → Nat) : List LLType → List LLType
  | [] => []
  | t :: ts => remapType ASRemapper t :: remapTypeList ASRemapper ts

end

mutual

/-- All address spaces of pointer types occurring (transitively) inside a
type; a type "transitively contains a pointer" iff this list is nonempty. -/
def ptrASes : LLType → List Nat
  | .scalar _ => []
  | .pointer addrspace => [addrspace]
  | .function ret params _ => ptrASes ret ++ ptrASesList params
  | .structLit fields _ => ptrASesList fields
  | .structNamed _ fields _ => ptrASesList fields
  | .structOpaque _ => []
  | .array elem _ => ptrASes elem
  | .vector elem _ => ptrASes elem

/-- Pointwise `ptrASes` over a list of types. -/
def ptrASesList : List LLType → List Nat
  | [] => []
  | t :: ts => ptrASes t ++ ptrASesList ts

end

/-- Model of `llvm::Value` restricted to the shapes distinguished by
`AddrspaceRemoveValueMaterializer::materialize` (source lines 125–159):
`simple` is a constant that is neither a `ConstantExpr` nor a global
reference (integers, floats, null pointers, undef, ...); `globalRef`
references a global value by name; `exprASCast` is a `ConstantExpr` with
opcode `Instruction::AddrSpaceCast` (one operand); `exprGEP` one with
opcode `Instruction::GetElementPtr`; `exprOther` any other `ConstantExpr`
(opcode plus operand list); `nonConst` a value that is not a constant at
all (an instruction or argument). -/
inductive Val where
  | simple (ty : LLType) (id : Nat)
  | globalRef (name : String) (ty : LLType)
  | exprASCast (ty : LLType) (op : Val)
  | exprGEP (ty : LLType) (ops : List Val)
  | exprOther (opcode : Nat) (ty : LLType) (ops : List Val)
  | nonConst (ty : LLType) (id : Nat)

/-- `Value::getType`. -/
def Val.ty : Val → LLType
  | .simple ty _ => ty
  | .globalRef _ ty => ty
  | .exprASCast ty _ => ty
  | .exprGEP ty _ => ty
  | .exprOther _ ty _ => ty
  | .nonConst ty _ => ty

/-- `Type::getScalarType`: the element type of a vector type, otherwise
the type itself. -/
def LLType.getScalarType : LLType → LLType
  | .vector elem _ => elem
  | t => t

/-- `Type::getPointerAddressSpace`: the address space of a pointer type
(or of the element type of a vector of pointers).  LLVM
`cast<PointerType>`s the scalar type, asserting that it is a pointer; the
embedding returns `none` outside that domain. -/
def getPointerAddressSpace (t : LLType) : Option Nat :=
  match t.getScalarType with
  | .pointer addrspace => some addrspace
  | _ => none

/-- Whether a value is a `ConstantExpr` (`dyn_cast<ConstantExpr>`
succeeds). -/
def Val.isConstantExpr : Val → Bool
  | .exprASCast _ _ => true
  | .exprGEP _ _ => true
  | .exprOther _ _ _ => true
  | .simple _ _ => false
  | .globalRef _ _ => false
  | .nonConst _ _ => false

mutual

/-- `AddrspaceRemoveValueMaterializer::materialize` (source lines
125–159).  Only `ConstantExpr` values get a non-null replacement: an
address-space cast whose recursively remapped operand already has the
address space the (remapped) cast type targets materializes to that
operand ("peek through addrspacecasts if their address spaces match"); a
non-matching address-space cast, a `getelementptr` expression
(`CE->getOpcode() != Instruction::GetElementPtr` guards the rebuild), and
every non-`ConstantExpr` value yield null, deferring to the generic value
mapper; any other `ConstantExpr` is rebuilt from its remapped operands
and remapped result type (`CE->getWithOperands(Ops, Ty)`). -/
def materialize (p : Nat → Nat) : Val → Option Val
  | .exprASCast ty op =>
      if getPointerAddressSpace (mapConstant p op).ty
          = getPointerAddressSpace (remapType p ty) then some (mapConstant p op)
      else none
  | .exprGEP _ _ => none
  | .exprOther opcode ty ops =>
      some (.exprOther opcode (remapType p ty) (mapConstantList p ops))
  | .simple _ _ => none
  | .globalRef _ _ => none
  | .nonConst _ _ => none
termination_by v => (sizeOf v, 0)

/-- The generic value mapper (`llvm::MapValue` with the materializer and
type remapper plugged in, the source's `mapConstant` helper): the
materializer is consulted first; if it declines, constants are mapped
structurally — a global reference resolves to its pre-declared
replacement (same original name, remapped type), other constants are
rebuilt with remapped types and recursively mapped operands, and
non-constant values are left to the surrounding function-cloning
machinery (identity here). -/
def mapConstant (p : Nat → Nat) (v : Val) : Val :=
  match materialize p v with
  | some r => r
  | none =>
      match v with
      | .simple ty id => .simple (remapType p ty) id
      | .globalRef name ty => .globalRef name (remapType p ty)
      | .exprASCast ty op => .exprASCast (remapType p ty) (mapConstant p op)
      | .exprGEP ty ops => .exprGEP (remapType p ty) (mapConstantList p ops)
      | .exprOther opcode ty ops =>
          .exprOther opcode (remapType p ty) (mapConstantList p ops)
      | .nonConst ty id => .nonConst ty id
termination_by (sizeOf v, 1)

/-- Pointwise `mapConstant` over an operand list (the source's loop over
`CE->getNumOperands()`; `NewOp ? cast<Constant>(NewOp) : Op` falls back
to the original operand when mapping returns null, which the total
embedding never does). -/
def mapConstantList (p : Nat → Nat) : List Val → List Val
  | [] => []
  | v :: vs => mapConstant p v :: mapConstantList p vs
termination_by l => (sizeOf l, 0)

end

/-- An SSA value referenced by an instruction operand: one of the
function's own instructions (by SSA id) or any other value — an argument,
constant, or global (`external`, by an opaque id). -/
inductive ValId where
  | instr (id : Nat)
  | external (id : Nat)
deriving DecidableEq

/-- An `llvm::Use`: the referenced value together with that value's type
(`getOperand(i)->getType()`). -/
structure Operand where
  val : ValId
  ty : LLType

/-- An instruction as `RemoveNoopAddrSpaceCasts` distinguishes them
(`dyn_cast<AddrSpaceCastInst>`): an address-space cast with its result
type and single operand, or any other instruction with its result type
and operand list. -/
inductive Inst where
  | addrspacecast (retTy : LLType) (op : Operand)
  | other (retTy : LLType) (ops : List Operand)

/-- An instruction together with its SSA id — its identity as an
`llvm::Value` that other instructions' operands refer to. -/
structure NamedInst where
  id : Nat
  inst : Inst

/-- The operand list of an instruction. -/
def Inst.operands : Inst → List Operand
  | .addrspacecast _ op => [op]
  | .other _ ops => ops

/-- The test of source line 188:
`ASC->getSrcAddressSpace() == ASC->getDestAddressSpace()`, where the
source address space is the pointer address space of the operand's type
and the destination is that of the cast's result type. -/
def Inst.isNoopASC : Inst → Bool
  | .addrspacecast retTy op =>
      decide (getPointerAddressSpace op.ty = getPointerAddressSpace retTy)
  | .other _ _ => false

/-- The instruction id an operand refers to, if it refers to one. -/
def Operand.refId (o : Operand) : Option Nat :=
  match o.val with
  | .instr id => some id
  | .external _ => none

/-- All instruction ids referenced by an instruction's operands. -/
def NamedInst.refIds (ni : NamedInst) : List Nat :=
  ni.inst.operands.filterMap Operand.refId

/-- One step of `Value::replaceAllUsesWith`: an operand that refers to
instruction `c` is replaced by the replacement operand `rep`. -/
def Operand.subst (c : Nat) (rep : Operand) (o : Operand) : Operand :=
  if o.val = .instr c then rep else o

/-- `Operand.subst` applied to every operand of an instruction. -/
def Inst.subst (c : Nat) (rep : Operand) : Inst → Inst
  | .addrspacecast retTy op => .addrspacecast retTy (Operand.subst c rep op)
  | .other retTy ops => .other retTy (ops.map (Operand.subst c rep))

/-- `Inst.subst` on a named instruction (the id is unchanged). -/
def NamedInst.subst (c : Nat) (rep : Operand) (ni : NamedInst) : NamedInst :=
  ⟨ni.id, Inst.subst c rep ni.inst⟩

/-- `ASC->replaceAllUsesWith(ASC->getOperand(0))` over a function body:
every use of instruction `c` anywhere in the body is replaced by `rep`. -/
def rauw (c : Nat) (rep : Operand) (body : List NamedInst) : List NamedInst :=
  body.map (NamedInst.subst c rep)

/-- The scan loop of `RemoveNoopAddrSpaceCasts` (source lines 185–201):
walk the instructions in order (`done` are the ones the iterator has
passed, `rest` the ones still ahead); for an address-space cast whose
source and destination address spaces are equal, replace all of its uses
throughout the function with its current operand and collect its id into
the `NoopCasts` list; leave every other instruction in place.  Returns the
function body after all the replacements together with the collected
ids. -/
def scanCasts : List NamedInst → List NamedInst → List NamedInst × List Nat
  | done, [] => (done, [])
  | done, ni :: rest =>
      match ni.inst with
      | .addrspacecast retTy op =>
          if getPointerAddressSpace op.ty = getPointerAddressSpace retTy then
            ((scanCasts (rauw ni.id op done ++ [NamedInst.subst ni.id op ni])
                (rauw ni.id op rest)).1,
              ni.id :: (scanCasts (rauw ni.id op done ++ [NamedInst.subst ni.id op ni])
                (rauw ni.id op rest)).2)
          else scanCasts (done ++ [ni]) rest
      | .other _ _ => scanCasts (done ++ [ni]) rest
termination_by _ rest => rest.length
decreasing_by
  all_goals simp [rauw]

/-- `RemoveNoopAddrSpaceCasts` (source lines 181–206): scan the function,
replace the uses of each equal-address-space cast with its operand, then
erase the collected casts (`I->eraseFromParent()`).  The source
initializes `bool Changed = false` and returns it without ever assigning
`true`, so the returned flag is `false` even when casts were removed; the
embedding reproduces this faithfully. -/
def RemoveNoopAddrSpaceCasts (F : List NamedInst) : List NamedInst × Bool :=
  let Changed := false
  let r := scanCasts [] F
  (r.1.filter (fun ni => !r.2.contains ni.id), Changed)

/-- The ids of a function body's instructions, in order. -/
def idsOf (l : List NamedInst) : List Nat := l.map NamedInst.id

/-- SSA well-formedness of a function body relative to the ids in `seen`:
every operand refers either to a value outside the body or to an
instruction occurring strictly earlier (LLVM's dominance requirement,
specialised to a straight-line body). -/
def wfChain (seen : List Nat) : List NamedInst → Prop
  | [] => True
  | ni :: rest => (∀ x ∈ ni.refIds, x ∈ seen) ∧ wfChain (ni.id :: seen) rest

instance instDecidableWfChain (seen : List Nat) :
    (l : List NamedInst) → Decidable (wfChain seen l)
  | [] => isTrue trivial
  | ni :: rest =>
      have : Decidable (wfChain (ni.id :: seen) rest) := instDecidableWfChain _ rest
      decidable_of_iff ((∀ x ∈ ni.refIds, x ∈ seen) ∧ wfChain (ni.id :: seen) rest)
        (by simp [wfChain])

/-- A function body consisting of a single address-space cast from
address space 3 to address space 3 (a no-op cast) of an external value. -/
def noopCastOnly : List NamedInst :=
  [⟨1, .addrspacecast (.pointer 3) ⟨.external 0, .pointer 3⟩⟩]

/-- A function body with a no-op address-space cast (instruction 2, from
address space 5 to address space 5) of the result of instruction 1, and a
third instruction using the cast. -/
def bodyWithNoopCast : List NamedInst :=
  [⟨1, .other (.pointer 5) []⟩,
   ⟨2, .addrspacecast (.pointer 5) ⟨.instr 1, .pointer 5⟩⟩,
   ⟨3, .other (.scalar 0) [⟨.instr 2, .pointer 5⟩]⟩]

/-- A global variable as the driver handles it (source lines 238–262 and
318–336): name (`""` for unnamed, LLVM's convention), value type, own
address space (`GV->getType()` is a pointer into this address space),
constness, linkage, thread-local mode, and optional initializer.
Metadata and comdat are copied verbatim by the driver and not modeled. -/
structure GlobalVariable where
  name : String
  valueType : LLType
  addrspace : Nat
  isConst : Bool
  linkage : Nat
  threadLocal : Nat
  init : Option Val

/-- `GlobalValue::getType`: with opaque pointers, a pointer type in the
global's own address space. -/
def GlobalVariable.getType (gv : GlobalVariable) : LLType := .pointer gv.addrspace

/-- A global alias (source lines 264–285 and 386–392): name, value type,
own address space, linkage, and optional aliasee. -/
structure GlobalAlias where
  name : String
  valueType : LLType
  addrspace : Nat
  linkage : Nat
  aliasee : Option Val

/-- `GlobalValue::getType` for an alias. -/
def GlobalAlias.getType (ga : GlobalAlias) : LLType := .pointer ga.addrspace

/-- A function (source lines 287–313 and 339–383): name, return type,
parameter types, variadic flag, linkage, its own address space
(`F->getAddressSpace()`), and a body of named instructions.  Named `Func`
because `Function` is taken by the ambient library.  Attribute sets and
comdat are not modeled.  `intrinsicId` is modelled from the spec: the
spec's "built-in/intrinsic functions" bind a built-in operation whose
"canonical encoded name ... embeds a type signature"; `intrinsicId`
identifies that operation (`none` for an ordinary function).  In LLVM
this identity is the `Intrinsic::ID` recovered from the function's name;
the model carries it as a field so that the remangling step can recompute
the canonical name. -/
structure Func where
  name : String
  retTy : LLType
  params : List LLType
  vararg : Bool
  linkage : Nat
  addrspace : Nat
  intrinsicId : Option Nat
  body : List NamedInst

/-- An `llvm::Module` restricted to what `removeAddrspaces` touches:
global variables, aliases, and functions.  Named metadata is remapped
verbatim by the driver and not modeled. -/
structure Module where
  globals : List GlobalVariable
  aliases : List GlobalAlias
  functions : List Func

/-- `cast<PointerType>(...)->getAddressSpace()` (source lines 259 and
279).  The argument there is always `remapType` of a pointer type, hence
itself a pointer type; a non-pointer argument would fail the cast's
assertion in LLVM. -/
def castPointerAddrspace : LLType → Nat
  | .pointer addrspace => addrspace
  | _ => 0

/-- The transient rename of source lines 242–248 (and 269–275, 292–298):
a named original is renamed `Name + ".bad"` so that its replacement can
claim `Name`; an unnamed entity stays unnamed. -/
def renameBad (name : String) : String := if name = "" then "" else name ++ ".bad"

/-- Phase 1 for one global variable (source lines 241–262): rename the
original with the ".bad" suffix and create the replacement under the
original name, with remapped value type and remapped own address space
(`cast<PointerType>(TypeRemapper.remapType(GV->getType()))->getAddressSpace()`),
copying constness, linkage and thread-local mode; the initializer is
deferred (`(Constant *)nullptr`).  Returns (renamed original,
replacement). -/
def declareGlobal (p : Nat → Nat) (gv : GlobalVariable) :
    GlobalVariable × GlobalVariable :=
  ({ gv with name := renameBad gv.name },
   { name := gv.name
     valueType := remapType p gv.valueType
     addrspace := castPointerAddrspace (remapType p gv.getType)
     isConst := gv.isConst
     linkage := gv.linkage
     threadLocal := gv.threadLocal
     init := none })

/-- Phase 2 for one global variable (source lines 318–336): map the
original's initializer through the value mapper and attach it to the
replacement. -/
def defineGlobal (p : Nat → Nat) (orig newGV : GlobalVariable) : GlobalVariable :=
  { newGV with init := orig.init.map (mapConstant p) }

/-- Phase 1 for one alias (source lines 268–285): rename-and-recreate
with remapped value type and own address space; aliasee deferred. -/
def declareAlias (p : Nat → Nat) (ga : GlobalAlias) : GlobalAlias × GlobalAlias :=
  ({ ga with name := renameBad ga.name },
   { name := ga.name
     valueType := remapType p ga.valueType
     addrspace := castPointerAddrspace (remapType p ga.getType)
     linkage := ga.linkage
     aliasee := none })

/-- Phase 2 for one alias (source lines 386–392): map the original's
aliasee through the value mapper and attach it to the replacement. -/
def defineAlias (p : Nat → Nat) (orig newGA : GlobalAlias) : GlobalAlias :=
  { newGA with aliasee := orig.aliasee.map (mapConstant p) }

/-- Phase 1 for one function (source lines 291–313): rename-and-recreate
with the function type rebuilt from remapped parameter and return types
(`FunctionType::get(remapType(FTy->getReturnType()), Tys, isVarArg)`).
The function's own address space is copied unchanged —
`Function::Create(NFTy, F->getLinkage(), F->getAddressSpace(), Name, &M)`
passes `F->getAddressSpace()` through without applying the policy.  Body
deferred. -/
def declareFunc (p : Nat → Nat) (F : Func) : Func × Func :=
  ({ F with name := renameBad F.name },
   { name := F.name
     retTy := remapType p F.retTy
     params := remapTypeList p F.params
     vararg := F.vararg
     linkage := F.linkage
     addrspace := F.addrspace
     intrinsicId := F.intrinsicId
     body := [] })

/-- One operand under `CloneFunctionInto` with the type remapper and
materializer (source lines 344–361): the reference is retargeted to the
replacement value of the same id (identity on ids in this model) and its
type is the remapped type of the original value. -/
def cloneOperand (p : Nat → Nat) (o : Operand) : Operand :=
  ⟨o.val, remapType p o.ty⟩

/-- One instruction under `CloneFunctionInto`: result type remapped,
operands cloned. -/
def cloneInst (p : Nat → Nat) : Inst → Inst
  | .addrspacecast retTy op => .addrspacecast (remapType p retTy) (cloneOperand p op)
  | .other retTy ops => .other (remapType p retTy) (ops.map (cloneOperand p))

/-- The body clone performed by `CloneFunctionInto` (source lines
351–361). -/
def cloneBody (p : Nat → Nat) (body : List NamedInst) : List NamedInst :=
  body.map (fun ni => ⟨ni.id, cloneInst p ni.inst⟩)

/-- Phase 2 for one function (source lines 339–383): clone the original's
body into the replacement with all types remapped, then run
`RemoveNoopAddrSpaceCasts` over the new body (source line 381).
Attribute rewriting and comdat copying are not modeled; the original's
body is deleted afterwards (source line 382). -/
def defineFunc (p : Nat → Nat) (orig newF : Func) : Func :=
  { newF with body := (RemoveNoopAddrSpaceCasts (cloneBody p orig.body)).1 }

mutual

/-- Modelled from the spec: a deterministic rendering of a type, used as
the building block of the "canonical encoded name" whose "encoding embeds
a type signature" (glossary, "Intrinsic / built-in function remangling").
The exact scheme of `llvm::Intrinsic` mangling is not part of this
repository's source; any injective rendering serves the spec's words. -/
def typeEncoding : LLType → String
  | .scalar id => "s" ++ toString id
  | .pointer addrspace => "p" ++ toString addrspace
  | .function ret params va =>
      "f" ++ typeEncoding ret ++ typeEncodingList params ++ (if va then "v" else "")
  | .structLit fields pk =>
      "l" ++ typeEncodingList fields ++ (if pk then "k" else "")
  | .structNamed name fields pk =>
      "n" ++ name ++ typeEncodingList fields ++ (if pk then "k" else "")
  | .structOpaque name => "o" ++ name
  | .array elem size => "a" ++ toString size ++ typeEncoding elem
  | .vector elem width => "x" ++ toString width ++ typeEncoding elem

/-- Modelled from the spec: pointwise `typeEncoding` over a parameter
list, each entry preceded by a separator. -/
def typeEncodingList : List LLType → String
  | [] => ""
  | t :: ts => "." ++ typeEncoding t ++ typeEncodingList ts

end

/-- Modelled from the spec: the canonical encoded name of the built-in
operation `iid` at a given type signature — spec §4.3 step 9 requires
recomputing a function's "canonical encoded name if its signature's
encoding depends on argument/return types that changed". -/
def intrinsicCanonicalName (iid : Nat) (retTy : LLType) (params : List LLType) :
    String :=
  "llvm." ++ toString iid ++ typeEncodingList params ++ "." ++ typeEncoding retTy

/-- Modelled from the spec: `Intrinsic::remangleIntrinsicFunction` (called
at source line 411) is an LLVM library routine, not part of this
repository; spec §4.3 step 9 describes it: for a built-in (intrinsic)
function, recompute the canonical encoded name from the function's
(already remapped) argument/return types; if it differs from the current
name, hand back the function under the new canonical name ("redirect all
uses to a function under the new canonical name and drop the stale one"),
otherwise nothing; an ordinary function is never remangled. -/
def remangleIntrinsicFunction (F : Func) : Option Func :=
  match F.intrinsicId with
  | none => none
  | some iid =>
      if F.name = intrinsicCanonicalName iid F.retTy F.params then none
      else some { F with name := intrinsicCanonicalName iid F.retTy F.params }

/-- One iteration of the remangling loop (source lines 409–415): when
`remangleIntrinsicFunction` produces a replacement, every use of the
stale function is redirected to it and the stale function erased, so the
module keeps the remangled function in its place; otherwise the function
stays.  (When another function already bears the canonical name, LLVM
redirects uses to that one and the function count shrinks; that merge
case is not modeled.) -/
def applyRemangle (F : Func) : Func :=
  match remangleIntrinsicFunction F with
  | some Remangled => Remangled
  | none => F

/-- `removeAddrspaces(Module &M, AddrspaceRemapFunction)` (source lines
228–418): declare renamed replacements for every global variable, alias
and function; then define initializers, bodies and aliasees through the
value mapper; then erase the renamed originals (source lines 400–406), so
only the replacements — carrying the original names — survive; finally
remangle every intrinsic function whose canonical encoded name changed
(source lines 409–415, via `remangleIntrinsicFunction`).  Returns `true`
unconditionally (source line 417). -/
def removeAddrspaces (p : Nat → Nat) (M : Module) : Module × Bool :=
  let globalPairs := M.globals.map (declareGlobal p)
  let aliasPairs := M.aliases.map (declareAlias p)
  let funcPairs := M.functions.map (declareFunc p)
  let newGlobals := globalPairs.map (fun pr => defineGlobal p pr.1 pr.2)
  let newFuncs := funcPairs.map (fun pr => defineFunc p pr.1 pr.2)
  let newAliases := aliasPairs.map (fun pr => defineAlias p pr.1 pr.2)
  let remangledFuncs := newFuncs.map applyRemangle
  ({ globals := newGlobals, aliases := newAliases, functions := remangledFuncs },
   true)

/-- A module containing a single ordinary (non-intrinsic) function
declared in address space 7, with no globals and no aliases. -/
def moduleWithASFunc : Module :=
  { globals := []
    aliases := []
    functions := [{ name := "f", retTy := .scalar 0, params := [],
                    vararg := false, linkage := 0, addrspace := 7,
                    intrinsicId := none, body := [] }] }

/-- A module containing a single intrinsic function (built-in operation
1) taking a pointer in address space 10, declared under the canonical
encoded name of that (pre-rewrite) signature. -/
def moduleWithIntrinsic : Module :=
  { globals := []
    aliases := []
    functions := [{ name := intrinsicCanonicalName 1 (.scalar 0) [.pointer 10],
                    retTy := .scalar 0, params := [.pointer 10],
                    vararg := false, linkage := 0, addrspace := 0,
                    intrinsicId := some 1, body := [] }] }

mutual

theorem remapType_idem_aux (t : LLType) :
    remapType removeAllAddrspaces (remapType removeAllAddrspaces t)
      = remapType removeAllAddrspaces t := by
  match t with
  | .scalar id => simp [remapType]
  | .pointer a => simp [remapType, removeAllAddrspaces]
  | .function ret params va =>
      simp [remapType, remapType_idem_aux ret, remapTypeList_idem_aux params]
  | .structLit fields pk => simp [remapType, remapTypeList_idem_aux fields]
  | .structNamed n fields pk => simp [remapType, remapTypeList_idem_aux fields]
  | .structOpaque n => simp [remapType]
  | .array e s => simp [remapType, remapType_idem_aux e]
  | .vector e w => simp [remapType, remapType_idem_aux e]

theorem remapTypeList_idem_aux (ts : List LLType) :
    remapTypeList removeAllAddrspaces (remapTypeList removeAllAddrspaces ts)
      = remapTypeList removeAllAddrspaces ts := by
  match ts with
  | [] => simp [remapTypeList]
  | t :: ts' => simp [remapTypeList, remapType_idem_aux t, remapTypeList_idem_aux ts']

end

mutual

theorem remapType_noptr_aux (p : Nat → Nat) (t : LLType) (h : ptrASes t = []) :
    remapType p t = t := by
  match t with
  | .scalar id => simp [remapType]
  | .pointer a => simp [ptrASes] at h
  | .function ret params va =>
      simp [ptrASes] at h
      simp [remapType, remapType_noptr_aux p ret h.1, remapTypeList_noptr_aux p params h.2]
  | .structLit fields pk =>
      simp [ptrASes] at h
      simp [remapType, remapTypeList_noptr_aux p fields h]
  | .structNamed n fields pk =>
      simp [ptrASes] at h
      simp [remapType, remapTypeList_noptr_aux p fields h]
  | .structOpaque n => simp [remapType]
  | .array e s =>
      simp [ptrASes] at h
      simp [remapType, remapType_noptr_aux p e h]
  | .vector e w =>
      simp [ptrASes] at h
      simp [remapType, remapType_noptr_aux p e h]

theorem remapTypeList_noptr_aux (p : Nat → Nat) (ts : List LLType)
    (h : ptrASesList ts = []) : remapTypeList p ts = ts := by
  match ts with
  | [] => simp [remapTypeList]
  | t :: ts' =>
      simp [ptrASesList] at h
      simp [remapTypeList, remapType_noptr_aux p t h.1, remapTypeList_noptr_aux p ts' h.2]

end

mutual

theorem ptrASes_remap_mem (p : Nat → Nat) (t : LLType) :
    ∀ a ∈ ptrASes (remapType p t), ∃ b, p b = a := by
  match t with
  | .scalar id => simp [remapType, ptrASes]
  | .pointer a =>
      intro x hx
      simp only [remapType, ptrASes, List.mem_singleton] at hx
      exact ⟨a, hx.symm⟩
  | .function ret params va =>
      simp only [remapType, ptrASes, List.mem_append]
      intro a ha
      rcases ha with ha | ha
      · exact ptrASes_remap_mem p ret a ha
      · exact ptrASesList_remap_mem p params a ha
  | .structLit fields pk =>
      simpa only [remapType, ptrASes] using ptrASesList_remap_mem p fields
  | .structNamed n fields pk =>
      simpa only [remapType, ptrASes] using ptrASesList_remap_mem p fields
  | .structOpaque n => simp [remapType, ptrASes]
  | .array e s => simpa only [remapType, ptrASes] using ptrASes_remap_mem p e
  | .vector e w => simpa only [remapType, ptrASes] using ptrASes_remap_mem p e

theorem ptrASesList_remap_mem (p : Nat → Nat) (ts : List LLType) :
    ∀ a ∈ ptrASesList (remapTypeList p ts), ∃ b, p b = a := by
  match ts with
  | [] => simp [remapTypeList, ptrASesList]
  | t :: ts' =>
      simp only [remapTypeList, ptrASesList, List.mem_append]
      intro a ha
      rcases ha with ha | ha
      · exact ptrASes_remap_mem p t a ha
      · exact ptrASesList_remap_mem p ts' a ha

end

theorem remapTypeList_getElem? (p : Nat → Nat) (ts : List LLType) (i : Nat) :
    (remapTypeList p ts)[i]? = ts[i]?.map (remapType p) := by
  induction ts generalizing i with
  | nil => simp [remapTypeList]
  | cons t ts' ih =>
      cases i with
      | zero => simp [remapTypeList]
      | succ j => simpa [remapTypeList] using ih j

/-- Claim C1: for a named, non-opaque struct type with a pointer among its
fields (with opaque pointers, a "pointer to itself" is exactly a pointer
field), `remapType` terminates and produces a named struct with the same
name whose field at the same position is again a pointer, with the address
space remapped by the policy.  Termination is witnessed by `remapType`
being a total structurally recursive function; in the source it is
guaranteed by recording the placeholder destination struct in
`MappedTypes` before recursing into the fields. -/
theorem remapType_structNamed_keeps_self_pointer (p : Nat → Nat) (name : String)
    (fields : List LLType) (packed : Bool) (i a : Nat)
    (h : fields[i]? = some (.pointer a)) :
    remapType p (.structNamed name fields packed)
        = .structNamed name (remapTypeList p fields) packed ∧
      (remapTypeList p fields)[i]? = some (.pointer (p a)) := by
  refine ⟨by simp [remapType], ?_⟩
  rw [remapTypeList_getElem?, h]
  simp [remapType]

/-- Concrete instance of `remapType_structNamed_keeps_self_pointer`: a
linked-list-style struct whose single field is a pointer (to itself) in
address space 10, under the collapse-all policy. -/
theorem remapType_structNamed_keeps_self_pointer_witness :
    ([LLType.pointer 10])[0]? = some (.pointer 10) ∧
      (remapType removeAllAddrspaces (.structNamed "list" [.pointer 10] false)
          = .structNamed "list" (remapTypeList removeAllAddrspaces [.pointer 10]) false ∧
        (remapTypeList removeAllAddrspaces [.pointer 10])[0]?
          = some (.pointer (removeAllAddrspaces 10))) :=
  ⟨rfl, remapType_structNamed_keeps_self_pointer removeAllAddrspaces "list"
    [.pointer 10] false 0 10 rfl⟩

/-- Claim C2: for every pointer type with address space `a`, `remapType`
yields a pointer type with address space `policy a`; with opaque pointers
(`PointerType::get(Ty->getContext(), ...)` in the source) the address
space is the only datum of a pointer type, so the result is otherwise
identical to the input. -/
theorem remapType_pointer (p : Nat → Nat) (a : Nat) :
    remapType p (.pointer a) = .pointer (p a) := by
  simp [remapType]

/-- Claim C5: a type that does not transitively contain a pointer type
(its list of transitively contained pointer address spaces is empty) is
mapped to itself by `remapType`, under structural equality — including
named non-opaque structs, whose rebuilt replacement carries the original
name and the identical field list. -/
theorem remapType_id_of_no_pointer (p : Nat → Nat) (t : LLType)
    (h : ptrASes t = []) : remapType p t = t :=
  remapType_noptr_aux p t h

/-- Concrete instance of `remapType_id_of_no_pointer`: a named struct of an
integer and an array of floats, under the collapse-all policy. -/
theorem remapType_id_of_no_pointer_witness :
    ptrASes (.structNamed "s" [.scalar 1, .array (.scalar 2) 4] false) = [] ∧
      remapType removeAllAddrspaces
          (.structNamed "s" [.scalar 1, .array (.scalar 2) 4] false)
        = .structNamed "s" [.scalar 1, .array (.scalar 2) 4] false :=
  ⟨rfl, remapType_id_of_no_pointer removeAllAddrspaces
    (.structNamed "s" [.scalar 1, .array (.scalar 2) 4] false) rfl⟩

/-- Claim C6: under the collapse-all policy `removeAllAddrspaces` (every
address space to `AddressSpace::Generic`), `remapType` is idempotent:
remapping an already-remapped type is the identity, since every pointer
already carries the single fixed generic address space. -/
theorem remapType_removeAllAddrspaces_idempotent (t : LLType) :
    remapType removeAllAddrspaces (remapType removeAllAddrspaces t)
      = remapType removeAllAddrspaces t :=
  remapType_idem_aux t

/-- Claim C7: a `ConstantExpr` address-space cast whose recursively
remapped operand's type already has the exact address space that the
(remapped) destination type of the cast targets materializes to the
remapped operand itself, not to a cast expression. -/
theorem materialize_folds_redundant_addrspacecast (p : Nat → Nat)
    (ty : LLType) (op : Val)
    (h : getPointerAddressSpace (mapConstant p op).ty
        = getPointerAddressSpace (remapType p ty)) :
    materialize p (.exprASCast ty op) = some (mapConstant p op) := by
  simp [materialize, h]

/-- Concrete instance of `materialize_folds_redundant_addrspacecast`:
under collapse-all, a constant cast of global `g` (a pointer in address
space 10) targeting address space 0 folds to the remapped `g`, whose type
is already a pointer in address space 0. -/
theorem materialize_folds_redundant_addrspacecast_witness :
    getPointerAddressSpace
        (mapConstant removeAllAddrspaces (.globalRef "g" (.pointer 10))).ty
      = getPointerAddressSpace (remapType removeAllAddrspaces (.pointer 0)) ∧
    materialize removeAllAddrspaces
        (.exprASCast (.pointer 0) (.globalRef "g" (.pointer 10)))
      = some (mapConstant removeAllAddrspaces (.globalRef "g" (.pointer 10))) := by
  have h : getPointerAddressSpace
      (mapConstant removeAllAddrspaces (.globalRef "g" (.pointer 10))).ty
      = getPointerAddressSpace (remapType removeAllAddrspaces (.pointer 0)) := by
    simp [mapConstant, materialize, remapType, Val.ty, getPointerAddressSpace,
      LLType.getScalarType, removeAllAddrspaces, AddressSpaceGeneric]
  exact ⟨h, materialize_folds_redundant_addrspacecast removeAllAddrspaces
    (.pointer 0) (.globalRef "g" (.pointer 10)) h⟩

/-- Claim C10: `materialize` returns `none` (a null `Value *`) for every
input that is not a `ConstantExpr`, and also for every `getelementptr`
constant expression — such values are left to the generic structural
value remap instead of being specially reconstructed. -/
theorem materialize_declines_non_exprs_and_gep (p : Nat → Nat) (v : Val)
    (h : v.isConstantExpr = false ∨ ∃ ty ops, v = .exprGEP ty ops) :
    materialize p v = none := by
  rcases h with h | ⟨ty, ops, rfl⟩
  · cases v <;> simp_all [Val.isConstantExpr, materialize]
  · simp [materialize]

/-- Concrete instance of `materialize_declines_non_exprs_and_gep`: a
`getelementptr` constant expression indexing into global `g` is not
materialized. -/
theorem materialize_declines_non_exprs_and_gep_witness :
    ((Val.exprGEP (.pointer 10) [.globalRef "g" (.pointer 10),
        .simple (.scalar 0) 1]).isConstantExpr = false ∨
      ∃ ty ops, Val.exprGEP (.pointer 10) [.globalRef "g" (.pointer 10),
        .simple (.scalar 0) 1] = .exprGEP ty ops) ∧
    materialize removeAllAddrspaces (.exprGEP (.pointer 10)
        [.globalRef "g" (.pointer 10), .simple (.scalar 0) 1]) = none := by
  have h : ((Val.exprGEP (.pointer 10) [.globalRef "g" (.pointer 10),
      .simple (.scalar 0) 1]).isConstantExpr = false ∨
      ∃ ty ops, Val.exprGEP (.pointer 10) [.globalRef "g" (.pointer 10),
        .simple (.scalar 0) 1] = .exprGEP ty ops) :=
    Or.inr ⟨_, _, rfl⟩
  exact ⟨h, materialize_declines_non_exprs_and_gep removeAllAddrspaces _ h⟩

theorem map_eq_self_of_eq {α : Type} (f : α → α) :
    ∀ (l : List α), (∀ a ∈ l, f a = a) → l.map f = l
  | [], _ => rfl
  | a :: l, h => by
      rw [List.map_cons, h a (List.mem_cons_self a l),
        map_eq_self_of_eq f l (fun b hb => h b (List.mem_cons_of_mem a hb))]

theorem Operand.refId_eq_some_iff (o : Operand) (x : Nat) :
    o.refId = some x ↔ o.val = .instr x := by
  cases o with
  | mk v ty => cases v <;> simp [Operand.refId]

theorem Operand.refId_subst (c : Nat) (rep o : Operand) (x : Nat)
    (h : (Operand.subst c rep o).refId = some x) :
    (o.refId = some x ∧ x ≠ c) ∨ rep.refId = some x := by
  unfold Operand.subst at h
  split at h
  · exact Or.inr h
  · rename_i hne
    refine Or.inl ⟨h, fun hx => ?_⟩
    subst hx
    exact hne ((Operand.refId_eq_some_iff o x).mp h)

theorem Operand.subst_eq_of_ne (c : Nat) (rep o : Operand)
    (h : o.refId ≠ some c) : Operand.subst c rep o = o := by
  unfold Operand.subst
  split
  · rename_i hv
    exact absurd ((Operand.refId_eq_some_iff o c).mpr hv) h
  · rfl

theorem NamedInst.refIds_subst (c : Nat) (rep : Operand) (ni : NamedInst)
    (x : Nat) (h : x ∈ (NamedInst.subst c rep ni).refIds) :
    (x ∈ ni.refIds ∧ x ≠ c) ∨ rep.refId = some x := by
  unfold NamedInst.subst NamedInst.refIds at *
  cases hI : ni.inst with
  | addrspacecast retTy op =>
      simp only [hI, Inst.subst, Inst.operands, List.filterMap_cons] at h ⊢
      rcases hor : (Operand.subst c rep op).refId with _ | y
      · simp [hor] at h
      · simp only [hor, List.filterMap_nil] at h
        simp at h
        subst h
        rcases Operand.refId_subst c rep op x hor with ⟨h1, h2⟩ | h1
        · simp [h1, h2]
        · exact Or.inr h1
  | other retTy ops =>
      simp only [hI, Inst.subst, Inst.operands] at h ⊢
      rw [List.mem_filterMap] at h
      obtain ⟨o, ho, hox⟩ := h
      rw [List.mem_map] at ho
      obtain ⟨o₀, ho₀, rfl⟩ := ho
      rcases Operand.refId_subst c rep o₀ x hox with ⟨h1, h2⟩ | h1
      · exact Or.inl ⟨List.mem_filterMap.mpr ⟨o₀, ho₀, h1⟩, h2⟩
      · exact Or.inr h1

theorem NamedInst.subst_eq_of_not_ref (c : Nat) (rep : Operand)
    (ni : NamedInst) (h : c ∉ ni.refIds) : NamedInst.subst c rep ni = ni := by
  unfold NamedInst.refIds at h
  unfold NamedInst.subst
  cases ni with
  | mk nid inst =>
      simp only
      cases inst with
      | addrspacecast retTy op =>
          simp only [Inst.operands, List.filterMap_cons] at h
          have hop : op.refId ≠ some c := by
            intro hc
            simp [hc] at h
          rw [Inst.subst, Operand.subst_eq_of_ne c rep op hop]
      | other retTy ops =>
          simp only [Inst.operands] at h
          rw [Inst.subst, map_eq_self_of_eq (Operand.subst c rep) ops (fun o ho =>
            Operand.subst_eq_of_ne c rep o
              (fun hc => h (List.mem_filterMap.mpr ⟨o, ho, hc⟩)))]


theorem idsOf_append (l₁ l₂ : List NamedInst) :
    idsOf (l₁ ++ l₂) = idsOf l₁ ++ idsOf l₂ := by
  simp [idsOf]

theorem idsOf_cons (ni : NamedInst) (l : List NamedInst) :
    idsOf (ni :: l) = ni.id :: idsOf l := rfl

theorem rauw_idsOf (c : Nat) (rep : Operand) (l : List NamedInst) :
    idsOf (rauw c rep l) = idsOf l := by
  simp [idsOf, rauw, NamedInst.subst]

theorem rauw_eq_of_not_ref (c : Nat) (rep : Operand) (l : List NamedInst)
    (h : ∀ ni ∈ l, c ∉ ni.refIds) : rauw c rep l = l :=
  map_eq_self_of_eq _ l (fun ni hni => NamedInst.subst_eq_of_not_ref c rep ni (h ni hni))

theorem mem_refIds_of_operand (ni : NamedInst) (o : Operand) (x : Nat)
    (ho : o ∈ ni.inst.operands) (hx : o.refId = some x) : x ∈ ni.refIds :=
  List.mem_filterMap.mpr ⟨o, ho, hx⟩

theorem wfChain_append_left (s : List Nat) :
    ∀ (l₁ l₂ : List NamedInst), wfChain s (l₁ ++ l₂) → wfChain s l₁
  | [], _, _ => trivial
  | ni :: l₁, l₂, h => ⟨h.1, wfChain_append_left (ni.id :: s) l₁ l₂ h.2⟩

theorem wfChain_mid_refs (s : List Nat) :
    ∀ (l₁ : List NamedInst) (ni : NamedInst) (l₂ : List NamedInst),
      wfChain s (l₁ ++ ni :: l₂) → ∀ x ∈ ni.refIds, x ∈ s ∨ x ∈ idsOf l₁
  | [], ni, l₂, h, x, hx => Or.inl (h.1 x hx)
  | a :: l₁, ni, l₂, h, x, hx => by
      rcases wfChain_mid_refs (a.id :: s) l₁ ni l₂ h.2 x hx with h' | h'
      · rcases List.mem_cons.mp h' with h' | h'
        · exact Or.inr (by simp [idsOf, h'])
        · exact Or.inl h'
      · exact Or.inr (by simp [idsOf] at h' ⊢; exact Or.inr h')

theorem wfChain_members_refs (s : List Nat) :
    ∀ (l : List NamedInst), wfChain s l →
      ∀ ni ∈ l, ∀ x ∈ ni.refIds, x ∈ s ∨ x ∈ idsOf l := by
  intro l hl ni hni x hx
  obtain ⟨l₁, l₂, rfl⟩ := List.append_of_mem hni
  rcases wfChain_mid_refs s l₁ ni l₂ hl x hx with h | h
  · exact Or.inl h
  · exact Or.inr (by simp [idsOf_append] at h ⊢; exact Or.inl h)

theorem wfChain_rauw (c : Nat) (rep : Operand) :
    ∀ (s : List Nat) (l : List NamedInst), wfChain s l →
      (∀ x, rep.refId = some x → x ∈ s) → wfChain s (rauw c rep l)
  | _, [], _, _ => trivial
  | s, ni :: l, h, hrep => by
      refine ⟨?_, ?_⟩
      · intro x hx
        rcases NamedInst.refIds_subst c rep ni x hx with ⟨hmem, _⟩ | hsome
        · exact h.1 x hmem
        · exact hrep x hsome
      · exact wfChain_rauw c rep (ni.id :: s) l h.2
          (fun x hx => List.mem_cons_of_mem _ (hrep x hx))

theorem wfChain_append_rauw (c : Nat) (rep : Operand) :
    ∀ (s : List Nat) (l₁ l₂ : List NamedInst),
      wfChain s (l₁ ++ l₂) →
      (∀ x, rep.refId = some x → x ∈ s ∨ x ∈ idsOf l₁) →
      wfChain s (l₁ ++ rauw c rep l₂)
  | s, [], l₂, h, hrep =>
      wfChain_rauw c rep s l₂ h
        (fun x hx => (hrep x hx).resolve_right (by simp [idsOf]))
  | s, a :: l₁, l₂, h, hrep => by
      refine ⟨h.1, ?_⟩
      refine wfChain_append_rauw c rep (a.id :: s) l₁ l₂ h.2 (fun x hx => ?_)
      rcases hrep x hx with h' | h'
      · exact Or.inl (List.mem_cons_of_mem _ h')
      · rw [idsOf_cons] at h'
        rcases List.mem_cons.mp h' with h' | h'
        · exact Or.inl (by simp [h'])
        · exact Or.inr h'


theorem scanCasts_spec (rest : List NamedInst) :
    ∀ (done : List NamedInst) (S : List Nat),
      (idsOf (done ++ rest)).Nodup →
      wfChain [] (done ++ rest) →
      (∀ ni ∈ done ++ rest, ∀ x ∈ S, x ∉ ni.refIds) →
      idsOf (scanCasts done rest).1 = idsOf (done ++ rest) ∧
      (∀ c ∈ (scanCasts done rest).2, c ∈ idsOf rest) ∧
      (∀ ni ∈ (scanCasts done rest).1, ∀ x,
          (x ∈ S ∨ x ∈ (scanCasts done rest).2) → x ∉ ni.refIds) ∧
      (∀ ni ∈ (scanCasts done rest).1, ni.inst.isNoopASC = true →
          ni.id ∈ (scanCasts done rest).2 ∨ ni ∈ done) ∧
      wfChain [] (scanCasts done rest).1 := by
  match rest with
  | [] =>
      intro done S hnd hwf hS
      rw [scanCasts]
      refine ⟨by simp, by simp, ?_, ?_, ?_⟩
      · intro m hm x hx
        rcases hx with hx | hx
        · exact hS m (by simpa using hm) x hx
        · simp at hx
      · intro m hm _
        exact Or.inr (by simpa using hm)
      · rw [List.append_nil] at hwf
        exact hwf
  | ni :: rest' =>
      intro done S hnd hwf hS
      obtain ⟨nid, inst⟩ := ni
      cases inst with
      | addrspacecast retTy op =>
          by_cases hcond : getPointerAddressSpace op.ty = getPointerAddressSpace retTy
          · -- a no-op address-space cast: RAUW and collect
            have hwfdone : wfChain [] done := wfChain_append_left [] done _ hwf
            have hnidnotdone : nid ∉ idsOf done := by
              rw [idsOf_append, idsOf_cons] at hnd
              intro hmem
              exact (List.nodup_append.mp hnd).2.2 hmem (List.mem_cons_self _ _)
            have hdonerefs : ∀ m ∈ done, nid ∉ m.refIds := by
              intro m hm hx
              rcases wfChain_members_refs [] done hwfdone m hm nid hx with h | h
              · simp at h
              · exact hnidnotdone h
            have hnirefs : ∀ x ∈ (NamedInst.mk nid (.addrspacecast retTy op)).refIds,
                x ∈ idsOf done := by
              intro x hx
              rcases wfChain_mid_refs [] done _ rest' hwf x hx with h | h
              · simp at h
              · exact h
            have hninotself : nid ∉ (NamedInst.mk nid (.addrspacecast retTy op)).refIds :=
              fun hx => hnidnotdone (hnirefs nid hx)
            have hop : ∀ x, op.refId = some x → x ∈ idsOf done := by
              intro x hx
              exact hnirefs x (mem_refIds_of_operand _ op x (by simp [Inst.operands]) hx)
            have hdone_eq : rauw nid op done = done := rauw_eq_of_not_ref nid op done hdonerefs
            have hni_eq : NamedInst.subst nid op ⟨nid, .addrspacecast retTy op⟩
                = ⟨nid, .addrspacecast retTy op⟩ :=
              NamedInst.subst_eq_of_not_ref nid op _ hninotself
            have hids2 : idsOf ((done ++ [⟨nid, .addrspacecast retTy op⟩]) ++ rauw nid op rest')
                = idsOf (done ++ ⟨nid, .addrspacecast retTy op⟩ :: rest') := by
              rw [idsOf_append, idsOf_append, rauw_idsOf, idsOf_append, idsOf_cons]
              simp [idsOf]
            have hnd' : (idsOf ((done ++ [⟨nid, .addrspacecast retTy op⟩])
                ++ rauw nid op rest')).Nodup := by
              rw [hids2]; exact hnd
            have hassoc : done ++ (⟨nid, .addrspacecast retTy op⟩ : NamedInst) :: rest'
                = (done ++ [⟨nid, .addrspacecast retTy op⟩]) ++ rest' := by simp
            have hwf' : wfChain [] ((done ++ [⟨nid, .addrspacecast retTy op⟩])
                ++ rauw nid op rest') := by
              refine wfChain_append_rauw nid op [] _ rest' (by rw [← hassoc]; exact hwf) ?_
              intro x hx
              refine Or.inr ?_
              rw [idsOf_append]
              exact List.mem_append.mpr (Or.inl (hop x hx))
            have hS' : ∀ m ∈ (done ++ [⟨nid, .addrspacecast retTy op⟩]) ++ rauw nid op rest',
                ∀ x ∈ nid :: S, x ∉ m.refIds := by
              intro m hm x hx hxm
              rcases List.mem_append.mp hm with hm1 | hm2
              · rcases List.mem_append.mp hm1 with hmd | hmN
                · rcases List.mem_cons.mp hx with hxn | hxS
                  · subst hxn
                    exact hdonerefs m hmd hxm
                  · exact hS m (List.mem_append.mpr (Or.inl hmd)) x hxS hxm
                · simp only [List.mem_singleton] at hmN
                  subst hmN
                  rcases List.mem_cons.mp hx with hxn | hxS
                  · subst hxn
                    exact hninotself hxm
                  · exact hS _ (by simp) x hxS hxm
              · rw [rauw] at hm2
                obtain ⟨m₀, hm₀, hmeq⟩ := List.mem_map.mp hm2
                subst hmeq
                rcases NamedInst.refIds_subst nid op m₀ x hxm with ⟨hx0, hxne⟩ | hsome
                · rcases List.mem_cons.mp hx with hxn | hxS
                  · exact hxne hxn
                  · exact hS m₀ (by simp [hm₀]) x hxS hx0
                · have hxdone := hop x hsome
                  rcases List.mem_cons.mp hx with hxn | hxS
                  · subst hxn
                    exact hnidnotdone hxdone
                  · exact hS ⟨nid, .addrspacecast retTy op⟩ (by simp) x hxS
                      (mem_refIds_of_operand _ op x (by simp [Inst.operands]) hsome)
            obtain ⟨ih1, ih2, ih3, ih4, ih5⟩ :=
              scanCasts_spec (rauw nid op rest')
                (done ++ [⟨nid, .addrspacecast retTy op⟩]) (nid :: S) hnd' hwf' hS'
            rw [scanCasts]
            simp only [if_pos hcond, hdone_eq, hni_eq]
            refine ⟨?_, ?_, ?_, ?_, ?_⟩
            · rw [ih1, hids2]
            · intro c hc
              rcases List.mem_cons.mp hc with rfl | hc
              · simp [idsOf_cons]
              · have := ih2 c hc
                rw [rauw_idsOf] at this
                rw [idsOf_cons]
                exact List.mem_cons_of_mem _ this
            · intro m hm x hx
              refine ih3 m hm x ?_
              rcases hx with hx | hx
              · exact Or.inl (List.mem_cons_of_mem _ hx)
              · rcases List.mem_cons.mp hx with rfl | hx
                · exact Or.inl (List.mem_cons_self _ _)
                · exact Or.inr hx
            · intro m hm hnoop
              rcases ih4 m hm hnoop with h | h
              · exact Or.inl (List.mem_cons_of_mem _ h)
              · rcases List.mem_append.mp h with h | h
                · exact Or.inr h
                · simp only [List.mem_singleton] at h
                  subst h
                  exact Or.inl (List.mem_cons_self _ _)
            · exact ih5
          · -- an address-space cast that is not a no-op: keep it
            have hassoc : done ++ (⟨nid, .addrspacecast retTy op⟩ : NamedInst) :: rest'
                = (done ++ [⟨nid, .addrspacecast retTy op⟩]) ++ rest' := by simp
            obtain ⟨ih1, ih2, ih3, ih4, ih5⟩ :=
              scanCasts_spec rest' (done ++ [⟨nid, .addrspacecast retTy op⟩]) S
                (by rw [← hassoc]; exact hnd) (by rw [← hassoc]; exact hwf)
                (by rw [← hassoc]; exact hS)
            rw [scanCasts]
            simp only [if_neg hcond]
            refine ⟨?_, ?_, ?_, ?_, ?_⟩
            · rw [ih1, ← hassoc]
            · intro c hc
              rw [idsOf_cons]
              exact List.mem_cons_of_mem _ (ih2 c hc)
            · exact ih3
            · intro m hm hnoop
              rcases ih4 m hm hnoop with h | h
              · exact Or.inl h
              · rcases List.mem_append.mp h with h | h
                · exact Or.inr h
                · simp only [List.mem_singleton] at h
                  subst h
                  simp [Inst.isNoopASC, hcond] at hnoop
            · exact ih5
      | other retTy ops =>
          have hassoc : done ++ (⟨nid, .other retTy ops⟩ : NamedInst) :: rest'
              = (done ++ [⟨nid, .other retTy ops⟩]) ++ rest' := by simp
          obtain ⟨ih1, ih2, ih3, ih4, ih5⟩ :=
            scanCasts_spec rest' (done ++ [⟨nid, .other retTy ops⟩]) S
              (by rw [← hassoc]; exact hnd) (by rw [← hassoc]; exact hwf)
              (by rw [← hassoc]; exact hS)
          rw [scanCasts]
          refine ⟨?_, ?_, ?_, ?_, ?_⟩
          · rw [ih1, ← hassoc]
          · intro c hc
            rw [idsOf_cons]
            exact List.mem_cons_of_mem _ (ih2 c hc)
          · exact ih3
          · intro m hm hnoop
            rcases ih4 m hm hnoop with h | h
            · exact Or.inl h
            · rcases List.mem_append.mp h with h | h
              · exact Or.inr h
              · simp only [List.mem_singleton] at h
                subst h
                simp [Inst.isNoopASC] at hnoop
          · exact ih5
termination_by rest.length
decreasing_by
  all_goals simp [rauw]



/-- Claim C4 (code bug): `RemoveNoopAddrSpaceCasts` is specified to return
a flag that is true exactly when at least one equal-address-space cast was
removed, but the source initializes `bool Changed = false` and returns it
without ever setting it: on a body consisting of one no-op address-space
cast the instruction is removed (the resulting body is empty and differs
from the input) while the returned flag is still `false`. -/
theorem RemoveNoopAddrSpaceCasts_changed_flag_never_set :
    noopCastOnly ≠ [] ∧
      (RemoveNoopAddrSpaceCasts noopCastOnly).1 = [] ∧
      (RemoveNoopAddrSpaceCasts noopCastOnly).2 = false := by
  refine ⟨by simp [noopCastOnly], ?_, rfl⟩
  simp [RemoveNoopAddrSpaceCasts, noopCastOnly, scanCasts, rauw, NamedInst.subst,
    Inst.subst, Operand.subst, getPointerAddressSpace, LLType.getScalarType,
    List.filter]

/-- Claim C8: on an SSA-well-formed body (distinct instruction ids,
operands referring only to strictly earlier instructions or to external
values), after `RemoveNoopAddrSpaceCasts` no equal-address-space cast
instruction remains, every surviving instruction id was an original id,
and no surviving operand references a deleted instruction (each use of a
removed cast was rewired to the cast's operand by the
`replaceAllUsesWith` step). -/
theorem RemoveNoopAddrSpaceCasts_removes_all_noop_casts (F : List NamedInst)
    (hnd : (idsOf F).Nodup) (hwf : wfChain [] F) :
    (∀ ni ∈ (RemoveNoopAddrSpaceCasts F).1, ni.inst.isNoopASC = false) ∧
      (∀ x ∈ idsOf (RemoveNoopAddrSpaceCasts F).1, x ∈ idsOf F) ∧
      (∀ ni ∈ (RemoveNoopAddrSpaceCasts F).1, ∀ x ∈ ni.refIds,
          x ∈ idsOf (RemoveNoopAddrSpaceCasts F).1) := by
  obtain ⟨h1, h2, h3, h4, h5⟩ := scanCasts_spec F [] []
    (by simpa using hnd) (by simpa using hwf) (by simp)
  refine ⟨?_, ?_, ?_⟩
  · intro ni hni
    simp only [RemoveNoopAddrSpaceCasts] at hni
    have hmem := List.mem_filter.mp hni
    cases hB : ni.inst.isNoopASC
    · rfl
    · exfalso
      rcases h4 ni hmem.1 hB with hc | hc
      · have hnc := hmem.2
        simp at hnc
        exact hnc hc
      · simp at hc
  · intro x hxr
    simp only [RemoveNoopAddrSpaceCasts, idsOf] at hxr ⊢
    obtain ⟨m, hm, hmx⟩ := List.mem_map.mp hxr
    have hmout := (List.mem_filter.mp hm).1
    have hx1 : x ∈ idsOf (scanCasts [] F).1 := List.mem_map.mpr ⟨m, hmout, hmx⟩
    rw [h1] at hx1
    simpa [idsOf] using hx1
  · intro ni hni x hx
    simp only [RemoveNoopAddrSpaceCasts] at hni ⊢
    have hmem := List.mem_filter.mp hni
    have hxout : x ∈ idsOf (scanCasts [] F).1 := by
      rcases wfChain_members_refs [] _ h5 ni hmem.1 x hx with h | h
      · simp at h
      · exact h
    have hxnotcs : x ∉ (scanCasts [] F).2 := fun hc => h3 ni hmem.1 x (Or.inr hc) hx
    simp only [idsOf] at hxout
    obtain ⟨m, hm, hmx⟩ := List.mem_map.mp hxout
    refine List.mem_map.mpr ⟨m, List.mem_filter.mpr ⟨hm, ?_⟩, hmx⟩
    simp [hmx, hxnotcs]

/-- Concrete instance of `RemoveNoopAddrSpaceCasts_removes_all_noop_casts`
on `bodyWithNoopCast`: the hypotheses hold and the conclusions follow. -/
theorem RemoveNoopAddrSpaceCasts_removes_all_noop_casts_witness :
    (idsOf bodyWithNoopCast).Nodup ∧ wfChain [] bodyWithNoopCast ∧
      ((∀ ni ∈ (RemoveNoopAddrSpaceCasts bodyWithNoopCast).1,
          ni.inst.isNoopASC = false) ∧
        (∀ x ∈ idsOf (RemoveNoopAddrSpaceCasts bodyWithNoopCast).1,
            x ∈ idsOf bodyWithNoopCast) ∧
        (∀ ni ∈ (RemoveNoopAddrSpaceCasts bodyWithNoopCast).1,
            ∀ x ∈ ni.refIds,
              x ∈ idsOf (RemoveNoopAddrSpaceCasts bodyWithNoopCast).1)) :=
  ⟨by decide, by decide,
    RemoveNoopAddrSpaceCasts_removes_all_noop_casts bodyWithNoopCast
      (by decide) (by decide)⟩


theorem remapTypeList_eq_map (p : Nat → Nat) (ts : List LLType) :
    remapTypeList p ts = ts.map (remapType p) := by
  induction ts with
  | nil => rfl
  | cons t ts' ih => simp [remapTypeList, ih]

theorem applyRemangle_retTy (F : Func) : (applyRemangle F).retTy = F.retTy := by
  unfold applyRemangle remangleIntrinsicFunction
  cases hI : F.intrinsicId with
  | none => rfl
  | some iid =>
      by_cases hname : F.name = intrinsicCanonicalName iid F.retTy F.params <;>
        simp [hname]

theorem applyRemangle_params (F : Func) : (applyRemangle F).params = F.params := by
  unfold applyRemangle remangleIntrinsicFunction
  cases hI : F.intrinsicId with
  | none => rfl
  | some iid =>
      by_cases hname : F.name = intrinsicCanonicalName iid F.retTy F.params <;>
        simp [hname]

theorem applyRemangle_addrspace (F : Func) :
    (applyRemangle F).addrspace = F.addrspace := by
  unfold applyRemangle remangleIntrinsicFunction
  cases hI : F.intrinsicId with
  | none => rfl
  | some iid =>
      by_cases hname : F.name = intrinsicCanonicalName iid F.retTy F.params <;>
        simp [hname]

/-- Counterexample to claim C9 as stated: a surviving intrinsic function
does not keep its original externally visible name when its canonical
encoded name embeds a remapped type.  On a module with one intrinsic
(built-in 1, one pointer-in-address-space-10 parameter) under
collapse-all, the final remangling step renames it to the canonical name
of the remapped (address-space-0) signature. -/
theorem removeAddrspaces_remangles_intrinsic_name :
    (removeAddrspaces removeAllAddrspaces moduleWithIntrinsic).1.functions.map
        Func.name
      ≠ moduleWithIntrinsic.functions.map Func.name := by
  have hne : intrinsicCanonicalName 1 (.scalar 0) [.pointer 10]
      ≠ intrinsicCanonicalName 1 (.scalar 0) [.pointer 0] := by decide
  have h : (removeAddrspaces removeAllAddrspaces moduleWithIntrinsic).1.functions.map
      Func.name = [intrinsicCanonicalName 1 (.scalar 0) [.pointer 0]] := by
    simp [removeAddrspaces, moduleWithIntrinsic, declareFunc, defineFunc, cloneBody,
      RemoveNoopAddrSpaceCasts, scanCasts, applyRemangle, remangleIntrinsicFunction,
      remapType, remapTypeList, removeAllAddrspaces, AddressSpaceGeneric, hne]
  rw [h]
  intro hcontra
  simp only [moduleWithIntrinsic, List.map_cons, List.map_nil, List.cons.injEq] at hcontra
  exact hne.symm hcontra.1

/-- Claim C9 as amended: after `removeAddrspaces` completes, every global
variable and alias carries its original externally visible name, and so
does every ordinary (non-built-in) function — the internal ".bad"
renaming is transient: each replacement is created under the original
name and the renamed originals are erased in teardown.  A built-in
(intrinsic) function, however, survives under the canonical encoded name
of its remapped signature, which coincides with the original name only
when the encoding did not change. -/
theorem removeAddrspaces_preserves_names_except_remangled (p : Nat → Nat)
    (M : Module) :
    (removeAddrspaces p M).1.globals.map GlobalVariable.name
        = M.globals.map GlobalVariable.name ∧
      (removeAddrspaces p M).1.aliases.map GlobalAlias.name
        = M.aliases.map GlobalAlias.name ∧
      ∀ (i : Nat) (F₀ : Func), M.functions[i]? = some F₀ →
        ∃ F₁, (removeAddrspaces p M).1.functions[i]? = some F₁ ∧
          (F₀.intrinsicId = none → F₁.name = F₀.name) ∧
          ∀ iid, F₀.intrinsicId = some iid →
            F₁.name = intrinsicCanonicalName iid (remapType p F₀.retTy)
              (remapTypeList p F₀.params) := by
  refine ⟨?_, ?_, ?_⟩
  · simp [removeAddrspaces, declareGlobal, defineGlobal, List.map_map,
      Function.comp]
  · simp [removeAddrspaces, declareAlias, defineAlias, List.map_map,
      Function.comp]
  · intro i F₀ hF₀
    refine ⟨applyRemangle (defineFunc p (declareFunc p F₀).1 (declareFunc p F₀).2),
      ?_, ?_, ?_⟩
    · simp [removeAddrspaces, List.map_map, List.getElem?_map, hF₀, Function.comp]
    · intro hnone
      simp [applyRemangle, remangleIntrinsicFunction, defineFunc, declareFunc,
        hnone]
    · intro iid hiid
      by_cases hname : F₀.name
          = intrinsicCanonicalName iid (remapType p F₀.retTy)
              (remapTypeList p F₀.params) <;>
        simp [applyRemangle, remangleIntrinsicFunction, defineFunc, declareFunc,
          hiid, hname]

/-- Counterexample to claim C3 as stated: under the collapse-all policy
(whose image is the single generic address space 0), a function declared
in address space 7 still has address space 7 after `removeAddrspaces`,
because `Function::Create(NFTy, F->getLinkage(), F->getAddressSpace(),
Name, &M)` copies the function's own address space unchanged instead of
remapping it. -/
theorem removeAddrspaces_function_addrspace_escapes_image :
    ∃ F ∈ (removeAddrspaces removeAllAddrspaces moduleWithASFunc).1.functions,
      ¬ ∃ b, removeAllAddrspaces b = F.addrspace := by
  have h : (removeAddrspaces removeAllAddrspaces moduleWithASFunc).1.functions
      = [{ name := "f", retTy := .scalar 0, params := [], vararg := false,
           linkage := 0, addrspace := 7, intrinsicId := none, body := [] }] := by
    simp [removeAddrspaces, moduleWithASFunc, declareFunc, defineFunc, cloneBody,
      RemoveNoopAddrSpaceCasts, scanCasts, applyRemangle,
      remangleIntrinsicFunction, remapType, remapTypeList]
  refine ⟨{ name := "f", retTy := .scalar 0, params := [], vararg := false,
            linkage := 0, addrspace := 7, intrinsicId := none, body := [] },
    by rw [h]; exact List.mem_singleton.mpr rfl, ?_⟩
  rintro ⟨b, hb⟩
  simp [removeAllAddrspaces, AddressSpaceGeneric] at hb

/-- Claim C3 as amended: after `removeAddrspaces`, every surviving global
variable and alias has a declared address space in the image of the
policy and value types whose pointers all carry image address spaces, and
every surviving function has parameter and return types whose pointers
all carry image address spaces — but a function's own declared address
space is copied through unchanged from the original function (so it lies
in the policy's image only if the original's already did). -/
theorem removeAddrspaces_addrspaces_in_image (p : Nat → Nat) (M : Module) :
    (∀ gv ∈ (removeAddrspaces p M).1.globals,
        (∃ b, p b = gv.addrspace) ∧ ∀ a ∈ ptrASes gv.valueType, ∃ b, p b = a) ∧
      (∀ ga ∈ (removeAddrspaces p M).1.aliases,
          (∃ b, p b = ga.addrspace) ∧ ∀ a ∈ ptrASes ga.valueType, ∃ b, p b = a) ∧
      (removeAddrspaces p M).1.functions.map Func.addrspace
          = M.functions.map Func.addrspace ∧
      (∀ F ∈ (removeAddrspaces p M).1.functions,
          (∀ a ∈ ptrASes F.retTy, ∃ b, p b = a) ∧
            ∀ t ∈ F.params, ∀ a ∈ ptrASes t, ∃ b, p b = a) := by
  refine ⟨?_, ?_, ?_, ?_⟩
  · intro gv hgv
    simp only [removeAddrspaces, List.map_map, List.mem_map, Function.comp] at hgv
    obtain ⟨gv₀, hgv₀, rfl⟩ := hgv
    constructor
    · refine ⟨gv₀.addrspace, ?_⟩
      simp [defineGlobal, declareGlobal, GlobalVariable.getType, remapType,
        castPointerAddrspace]
    · intro a ha
      simp only [defineGlobal, declareGlobal] at ha
      exact ptrASes_remap_mem p gv₀.valueType a ha
  · intro ga hga
    simp only [removeAddrspaces, List.map_map, List.mem_map, Function.comp] at hga
    obtain ⟨ga₀, hga₀, rfl⟩ := hga
    constructor
    · refine ⟨ga₀.addrspace, ?_⟩
      simp [defineAlias, declareAlias, GlobalAlias.getType, remapType,
        castPointerAddrspace]
    · intro a ha
      simp only [defineAlias, declareAlias] at ha
      exact ptrASes_remap_mem p ga₀.valueType a ha
  · simp [removeAddrspaces, declareFunc, defineFunc, applyRemangle_addrspace,
      List.map_map, Function.comp]
  · intro F hF
    simp only [removeAddrspaces, List.map_map, List.mem_map, Function.comp] at hF
    obtain ⟨F₀, hF₀, rfl⟩ := hF
    constructor
    · intro a ha
      simp only [applyRemangle_retTy, defineFunc, declareFunc] at ha
      exact ptrASes_remap_mem p F₀.retTy a ha
    · intro t ht a ha
      simp only [applyRemangle_params, defineFunc, declareFunc,
        remapTypeList_eq_map, List.mem_map] at ht
      obtain ⟨t₀, ht₀, rfl⟩ := ht
      exact ptrASes_remap_mem p t₀ a ha

end LLVMRemoveAddrspaces
